import Mathlib

/-!
# Verification of the topicctl admin client against its specification

The repository ships the admin client's test suite (`pkg/admin/client_test.go`)
and one caller (`cmd/topicctl/subcmd/repl.go`); the admin client body itself
(`pkg/admin/client.go`) is not part of the provided sources.  The development
below therefore models the admin client from the specification (§3, §4, §6 of
`spec.md`), using the in-repository test suite to fix behaviour wherever the
specification leaves a choice.  The coordination service (ZooKeeper) state is
embedded as a record of the documents the specification tabulates in §3, and
every admin-client operation is a pure function from that state to a result
plus a new state, failing with an explicit error value.
-/

set_option autoImplicit false

deriving instance DecidableEq for Except

namespace Topicctl

/-- A Kafka config entry as passed to the update operations: a key name plus a
value, where the empty value requests deletion of the key. -/
structure ConfigEntry where
  configName : String
  configValue : String
  deriving DecidableEq, Repr

/-- Contents of a `/config/topics/<name>` or `/config/brokers/<id>` document:
a numeric version field plus a string-to-string config map (modelled as an
association list, first occurrence of a key wins). -/
structure ConfigDoc where
  version : Nat
  config : List (String × String)
  deriving DecidableEq, Repr

/-- Contents of an ephemeral `/brokers/ids/<id>` registration node.  The
timestamp is kept in its wire form: an optional decimal string giving
milliseconds since the epoch. -/
structure BrokerNode where
  host : String
  port : Nat
  rack : String
  timestamp : Option String
  deriving DecidableEq, Repr

/-- Contents of a `/brokers/topics/<name>` assignment document: version plus a
map from partition id to replica list. -/
structure AssignmentDoc where
  version : Nat
  partitions : List (Nat × List Nat)
  deriving DecidableEq, Repr

/-- Contents of a `/brokers/topics/<n>/partitions/<pid>/state` document,
owned by the controller and read-only to the admin client. -/
structure PartitionStateDoc where
  leader : Nat
  version : Nat
  isr : List Nat
  controllerEpoch : Nat
  leaderEpoch : Nat
  deriving DecidableEq, Repr

/-- One partition entry of the `/admin/reassign_partitions` document. -/
structure ReassignEntry where
  topic : String
  partition : Nat
  replicas : List Nat
  deriving DecidableEq, Repr

/-- The `/admin/reassign_partitions` control document. -/
structure ReassignDoc where
  version : Nat
  partitions : List ReassignEntry
  deriving DecidableEq, Repr

/-- One partition entry of the `/admin/preferred_replica_election` document. -/
structure ElectionEntry where
  topic : String
  partition : Nat
  deriving DecidableEq, Repr

/-- The `/admin/preferred_replica_election` control document. -/
structure ElectionDoc where
  version : Nat
  partitions : List ElectionEntry
  deriving DecidableEq, Repr

/-- Body of a sequential `/config/changes/config_change_<seq>` notice.  Its
`version` is the change-notification protocol version (2), not the config
document's version. -/
structure ChangeNotice where
  entityPath : String
  version : Nat
  deriving DecidableEq, Repr

/-- The `/cluster/id` document: `{version:"1", id:<string>}`. -/
structure ClusterIDDoc where
  version : String
  id : String
  deriving DecidableEq, Repr

/-- The coordination-service state visible to the admin client: one field per
document family of the §3 data model, under the (implicit) cluster prefix.
The `changes` list models the sequential children of `/config/changes` in
creation order. -/
structure Store where
  clusterID : Option ClusterIDDoc
  brokers : List (Nat × BrokerNode)
  brokerConfigs : List (Nat × ConfigDoc)
  topicAssignments : List (String × AssignmentDoc)
  topicConfigs : List (String × ConfigDoc)
  partitionStates : List ((String × Nat) × PartitionStateDoc)
  reassign : Option ReassignDoc
  election : Option ElectionDoc
  changes : List ChangeNotice
  deriving DecidableEq, Repr

/-- Abstract error kinds of the admin client (§7). -/
inductive AdminError where
  | notFound
  | nodeExists
  | badVersion
  | connectionLost
  | clusterIDMismatch
  | readOnly
  | alreadyRunning
  | partitionExists
  | replicaWidthMismatch
  | invalidArgument
  deriving DecidableEq, Repr

/-- Construction options of the admin client (§6). -/
structure ClientConfig where
  zkAddrs : List String
  zkPfx : String
  bootstrapAddrs : List String
  expectedClusterID : String
  readOnly : Bool
  deriving DecidableEq, Repr

/-- The constructed admin client.  The only per-client state the modelled
operations consult is the read-only flag. -/
structure Client where
  readOnly : Bool
  deriving DecidableEq, Repr

/-! ## Association-list primitives

The coordination service's JSON maps are modelled as association lists in
which the first occurrence of a key is the binding. -/

/-- Look up a key in an association list. -/
def lookupA {κ α : Type} [DecidableEq κ] (k : κ) : List (κ × α) → Option α
  | [] => none
  | (k2, v) :: rest => if k2 = k then some v else lookupA k rest

/-- Insert or overwrite a key in an association list, keeping the position of
an existing binding and appending a new key at the end. -/
def insertA {κ α : Type} [DecidableEq κ] (k : κ) (v : α) : List (κ × α) → List (κ × α)
  | [] => [(k, v)]
  | (k2, v2) :: rest => if k2 = k then (k, v) :: rest else (k2, v2) :: insertA k v rest

/-- Remove a key from an association list. -/
def eraseA {κ α : Type} [DecidableEq κ] (k : κ) : List (κ × α) → List (κ × α)
  | [] => []
  | (k2, v2) :: rest => if k2 = k then rest else (k2, v2) :: eraseA k rest

/-! ## Client construction and cluster-id pinning -/

/-- Modelled from the spec: §4.4 "Cluster-ID pinning" of the missing
`pkg/admin/client.go`.  If `ExpectedClusterID` is non-empty, construction reads
`/cluster/id` once and fails with `ClusterIDMismatch` unless the stored id
matches; otherwise the client is produced carrying the read-only flag. -/
def newClient (cfg : ClientConfig) (s : Store) : Except AdminError Client :=
  if cfg.expectedClusterID = "" then .ok { readOnly := cfg.readOnly }
  else
    match s.clusterID with
    | none => .error .notFound
    | some doc =>
        if doc.id = cfg.expectedClusterID then .ok { readOnly := cfg.readOnly }
        else .error .clusterIDMismatch

/-- Modelled from the spec: `GetClusterID` of the missing `pkg/admin/client.go`
reads the `id` field of the `/cluster/id` document. -/
def getClusterID (s : Store) : Except AdminError String :=
  match s.clusterID with
  | none => .error .notFound
  | some doc => .ok doc.id

/-! ## Config updates (the Mutation Engine, §4.4) -/

/-- Modelled from the spec: the read step of `UpdateTopicConfig` /
`UpdateBrokerConfig` in the missing `pkg/admin/client.go`.  An absent config
document is treated as an empty map; the document version written on lazy
creation is 1, as asserted by `TestUpdateBrokerConfig`, and an existing
document's version field is preserved across the compare-and-set (§9, open
question (a)). -/
def configDocFor (o : Option ConfigDoc) : ConfigDoc :=
  match o with
  | some d => d
  | none => { version := 1, config := [] }

/-- Modelled from the spec: one entry of the merge step of the config update
operations (§4.4) of the missing `pkg/admin/client.go`.  A non-empty value sets
the key, an empty value deletes it; an insertion always counts as changed; a
key that already exists with a different value — including the empty-value
deletion request, as fixed by `TestUpdateBrokerConfig` — is rewritten and
counted only when `overwrite` is true, and is otherwise silently skipped. -/
def applyEntry (overwrite : Bool) (cfg : List (String × String)) (e : ConfigEntry) :
    List (String × String) × Bool :=
  match lookupA e.configName cfg with
  | some v =>
      if e.configValue = "" then
        if overwrite then (eraseA e.configName cfg, true) else (cfg, false)
      else if v = e.configValue then (cfg, false)
      else if overwrite then (insertA e.configName e.configValue cfg, true)
      else (cfg, false)
  | none =>
      if e.configValue = "" then (cfg, false)
      else (insertA e.configName e.configValue cfg, true)

/-- Modelled from the spec: the full merge step of the config update
operations, applying the entries in input order and collecting the changed
keys in that same order. -/
def applyEntries (overwrite : Bool) (cfg : List (String × String)) :
    List ConfigEntry → List (String × String) × List String
  | [] => (cfg, [])
  | e :: rest =>
      let p := applyEntry overwrite cfg e
      let q := applyEntries overwrite p.1 rest
      (q.1, (if p.2 then [e.configName] else []) ++ q.2)

/-- Modelled from the spec: `UpdateTopicConfig` of the missing
`pkg/admin/client.go` (§4.4): read `/config/topics/<name>`, merge the entries,
and if the change set is non-empty compare-and-set the document (version field
preserved) and append a sequential ChangeNotice with entity path
`topics/<name>` and protocol version 2.  Fails with `ReadOnly` before any I/O
when the client is read-only. -/
def updateTopicConfig (c : Client) (s : Store) (name : String)
    (entries : List ConfigEntry) (overwrite : Bool) :
    Except AdminError (List String × Store) :=
  if c.readOnly then .error .readOnly
  else
    let doc := configDocFor (lookupA name s.topicConfigs)
    let r := applyEntries overwrite doc.config entries
    if r.2 = [] then .ok ([], s)
    else
      .ok (r.2,
        { s with
          topicConfigs := insertA name { version := doc.version, config := r.1 } s.topicConfigs,
          changes := s.changes ++ [{ entityPath := "topics/" ++ name, version := 2 }] })

/-- Modelled from the spec: `UpdateBrokerConfig` of the missing
`pkg/admin/client.go` (§4.4), identical to the topic variant except for the
document path `/config/brokers/<id>` and the entity path `brokers/<id>`. -/
def updateBrokerConfig (c : Client) (s : Store) (id : Nat)
    (entries : List ConfigEntry) (overwrite : Bool) :
    Except AdminError (List String × Store) :=
  if c.readOnly then .error .readOnly
  else
    let doc := configDocFor (lookupA id s.brokerConfigs)
    let r := applyEntries overwrite doc.config entries
    if r.2 = [] then .ok ([], s)
    else
      .ok (r.2,
        { s with
          brokerConfigs := insertA id { version := doc.version, config := r.1 } s.brokerConfigs,
          changes := s.changes ++ [{ entityPath := "brokers/" ++ toString id, version := 2 }] })

/-! ## Partition reassignment, partition addition, leader election (§4.4) -/

/-- One partition assignment as passed to `AssignPartitions` and
`AddPartitions`: a partition id plus its replica list. -/
structure PartitionAssignment where
  id : Nat
  replicas : List Nat
  deriving DecidableEq, Repr

/-- Modelled from the spec: `AssignmentInProgress` of the missing
`pkg/admin/client.go` is the existence of `/admin/reassign_partitions`. -/
def assignmentInProgress (s : Store) : Bool :=
  s.reassign.isSome

/-- Modelled from the spec: `ElectionInProgress` of the missing
`pkg/admin/client.go` is the existence of `/admin/preferred_replica_election`. -/
def electionInProgress (s : Store) : Bool :=
  s.election.isSome

/-- Modelled from the spec: `AssignPartitions` of the missing
`pkg/admin/client.go` (§4.4).  A persistent create of
`/admin/reassign_partitions` with version 1 and one entry per input
assignment, in input order; fails with `AlreadyRunning` when the node already
exists and with `ReadOnly` on a read-only client. -/
def assignPartitions (c : Client) (s : Store) (topic : String)
    (assignments : List PartitionAssignment) : Except AdminError Store :=
  if c.readOnly then .error .readOnly
  else if s.reassign.isSome then .error .alreadyRunning
  else
    .ok { s with reassign := some (
      { version := 1,
        partitions := assignments.map fun a =>
          { topic := topic, partition := a.id, replicas := a.replicas } } : ReassignDoc) }

/-- Modelled from the spec: `RunLeaderElection` of the missing
`pkg/admin/client.go` (§4.4).  Writes `/admin/preferred_replica_election`
with the partition ids in the given order, duplicates preserved; fails with
`AlreadyRunning` when an election is in flight and with `ReadOnly` on a
read-only client. -/
def runLeaderElection (c : Client) (s : Store) (topic : String)
    (ids : List Nat) : Except AdminError Store :=
  if c.readOnly then .error .readOnly
  else if s.election.isSome then .error .alreadyRunning
  else
    .ok { s with election := some (
      { version := 1,
        partitions := ids.map fun p => { topic := topic, partition := p } } : ElectionDoc) }

/-- Modelled from the spec: the dense-continuation check of `AddPartitions`
(§4.4 step 3): the new partition ids must be exactly `n, n+1, …` in order. -/
def denseFrom (n : Nat) (assignments : List PartitionAssignment) : Bool :=
  assignments.map (fun a => a.id) == List.range' n assignments.length

/-- Modelled from the spec: the replica-width check of `AddPartitions`
(§4.4 step 4): each new replica list must have the width of the existing
assignment's replica lists. -/
def widthsMatch (existing : List (Nat × List Nat))
    (assignments : List PartitionAssignment) : Bool :=
  match existing with
  | [] => true
  | (_, reps) :: _ => assignments.all fun a => a.replicas.length == reps.length

/-- Modelled from the spec: `AddPartitions` of the missing
`pkg/admin/client.go` (§4.4): read the assignment document, reject an id that
already exists (`PartitionExists`), a non-dense continuation
(`InvalidArgument`) or a replica-width mismatch (`ReplicaWidthMismatch`), and
otherwise compare-and-set the document merging existing and new partitions. -/
def addPartitions (c : Client) (s : Store) (topic : String)
    (assignments : List PartitionAssignment) : Except AdminError Store :=
  if c.readOnly then .error .readOnly
  else
    match lookupA topic s.topicAssignments with
    | none => .error .notFound
    | some doc =>
        if assignments.any (fun a => doc.partitions.any fun p => p.1 == a.id) then
          .error .partitionExists
        else if denseFrom doc.partitions.length assignments = false then
          .error .invalidArgument
        else if widthsMatch doc.partitions assignments = false then
          .error .replicaWidthMismatch
        else
          .ok { s with topicAssignments :=
            (insertA topic
              { version := doc.version,
                partitions := doc.partitions ++ assignments.map fun a => (a.id, a.replicas) }
              s.topicAssignments) }

/-- The state produced by a successful `AddPartitions` call: the assignment
document of the topic is rewritten, merging existing and new partitions. -/
def addedStore (s : Store) (topic : String) (doc : AssignmentDoc)
    (assignments : List PartitionAssignment) : Store :=
  { s with topicAssignments :=
      (insertA topic
        { version := doc.version,
          partitions := doc.partitions ++ assignments.map fun a => (a.id, a.replicas) }
        s.topicAssignments) }

/-- The state produced by a successful `AssignPartitions` call: the
`/admin/reassign_partitions` node holds the input, in order. -/
def reassignedStore (s : Store) (topic : String)
    (assignments : List PartitionAssignment) : Store :=
  { s with reassign := some (
      { version := 1,
        partitions := assignments.map fun a =>
          { topic := topic, partition := a.id, replicas := a.replicas } } : ReassignDoc) }

/-- The state produced by a successful `RunLeaderElection` call: the
`/admin/preferred_replica_election` node holds the ids, in order. -/
def electedStore (s : Store) (topic : String) (ids : List Nat) : Store :=
  { s with election := some (
      { version := 1,
        partitions := ids.map fun p => { topic := topic, partition := p } } : ElectionDoc) }

/-! ## The Reconciler's read surface (§4.3) -/

/-- The merged per-partition view produced by the Reconciler. -/
structure PartitionInfo where
  topic : String
  id : Nat
  leader : Nat
  version : Nat
  replicas : List Nat
  isr : List Nat
  controllerEpoch : Nat
  leaderEpoch : Nat
  deriving DecidableEq, Repr

/-- The merged per-topic view produced by the Reconciler. -/
structure TopicInfo where
  name : String
  config : List (String × String)
  partitions : List PartitionInfo
  version : Nat
  deriving DecidableEq, Repr

/-- The merged per-broker view produced by the Reconciler.  The timestamp is
kept as milliseconds since the epoch; a missing `/config/brokers/<id>`
document leaves `config` as `none`. -/
structure BrokerInfo where
  id : Nat
  host : String
  port : Nat
  rack : String
  timestampMs : Nat
  config : Option (List (String × String))
  deriving DecidableEq, Repr

/-- Ordering of assignment entries by partition id, used to present a topic's
partitions in ascending id order. -/
def partLE (a b : Nat × List Nat) : Prop :=
  a.1 ≤ b.1

instance : DecidableRel partLE :=
  fun a b => inferInstanceAs (Decidable (a.1 ≤ b.1))

instance : IsTotal (Nat × List Nat) partLE :=
  ⟨fun a b => Nat.le_total a.1 b.1⟩

instance : IsTrans (Nat × List Nat) partLE :=
  ⟨fun _ _ _ hab hbc => Nat.le_trans hab hbc⟩

/-- Read the controller-owned state document of one partition. -/
def lookupState (s : Store) (topic : String) (pid : Nat) : Option PartitionStateDoc :=
  lookupA (topic, pid) s.partitionStates

/-- Modelled from the spec: the per-partition merge of `GetTopics` (§4.3
step 3) of the missing `pkg/admin/client.go`: replicas come from the
assignment entry, and when `includeState` is set, leader/ISR/epochs are merged
in from the partition's state document. -/
def mkPartitionInfo (s : Store) (topic : String) (includeState : Bool)
    (p : Nat × List Nat) : PartitionInfo :=
  let st := if includeState then lookupState s topic p.1 else none
  { topic := topic
    id := p.1
    replicas := p.2
    leader := (st.map fun d => d.leader).getD 0
    version := (st.map fun d => d.version).getD 0
    isr := (st.map fun d => d.isr).getD []
    controllerEpoch := (st.map fun d => d.controllerEpoch).getD 0
    leaderEpoch := (st.map fun d => d.leaderEpoch).getD 0 }

/-- Modelled from the spec: `GetTopic` / `getTopic` of the missing
`pkg/admin/client.go` (§4.3): read the assignment document (absent topic fails
with `NotFound`), the optional config document (absent means an empty config
map), and present the partitions sorted by ascending id. -/
def getTopic (s : Store) (name : String) (includeState : Bool) :
    Except AdminError TopicInfo :=
  match lookupA name s.topicAssignments with
  | none => .error .notFound
  | some doc =>
      .ok
        { name := name
          config :=
            match lookupA name s.topicConfigs with
            | some d => d.config
            | none => []
          partitions :=
            (List.insertionSort partLE doc.partitions).map
              (mkPartitionInfo s name includeState)
          version := doc.version }

/-- Value of one decimal digit character. -/
def digitVal (c : Char) : Option Nat :=
  if c.toNat ≥ 48 ∧ c.toNat ≤ 57 then some (c.toNat - 48) else none

/-- Parse a run of decimal digits, most significant first, onto an
accumulator; any non-digit character fails the parse. -/
def parseDigits : List Char → Nat → Option Nat
  | [], acc => some acc
  | c :: rest, acc =>
      match digitVal c with
      | none => none
      | some d => parseDigits rest (acc * 10 + d)

/-- Parse a non-empty string of decimal digits as a base-10 natural. -/
def parseDecimal (str : String) : Option Nat :=
  match str.data with
  | [] => none
  | cs => parseDigits cs 0

/-- Modelled from the spec: the broker timestamp parse of `GetBrokers` (§3):
the stored field is read as a base-10 integer of milliseconds since the epoch,
and an absent field yields the zero time. -/
def parseTimestampMs (o : Option String) : Nat :=
  match o with
  | none => 0
  | some str => (parseDecimal str).getD 0

/-- Modelled from the spec: the per-broker merge of `GetBrokers` (§4.3): the
registration node's fields plus the optional `/config/brokers/<id>` document
(missing document leaves the config absent). -/
def mkBrokerInfo (s : Store) (id : Nat) (node : BrokerNode) : BrokerInfo :=
  { id := id
    host := node.host
    port := node.port
    rack := node.rack
    timestampMs := parseTimestampMs node.timestamp
    config := (lookupA id s.brokerConfigs).map fun d => d.config }

/-- Modelled from the spec: `GetBrokers` of the missing `pkg/admin/client.go`
(§4.3): enumerate the registered brokers and merge each with its optional
config document. -/
def getBrokers (s : Store) : List BrokerInfo :=
  s.brokers.map fun p => mkBrokerInfo s p.1 p.2

/-- The config map currently stored for a topic (empty when the document is
absent), as read by the update operations. -/
def storedTopicConfig (s : Store) (name : String) : List (String × String) :=
  (configDocFor (lookupA name s.topicConfigs)).config

/-- The config map currently stored for a broker (empty when the document is
absent), as read by the update operations. -/
def storedBrokerConfig (s : Store) (id : Nat) : List (String × String) :=
  (configDocFor (lookupA id s.brokerConfigs)).config

/-! ## The repl subcommand's direct client construction
(`cmd/topicctl/subcmd/repl.go`) -/

/-- The flag set of the repl subcommand (`replCmdConfig` in
`cmd/topicctl/subcmd/repl.go`). -/
structure ReplCmdConfig where
  clusterConfig : String
  zkAddr : String
  zkPfx : String
  deriving DecidableEq, Repr

/-- From `replRun` in `cmd/topicctl/subcmd/repl.go`: when no cluster-config is
given, the admin client is constructed directly from the zk flags with
`ReadOnly: true` ("Run in read-only mode to ensure that tailing doesn't make
any changes in the cluster"); the remaining options keep their zero values. -/
def replDirectClientConfig (rc : ReplCmdConfig) : ClientConfig :=
  { zkAddrs := [rc.zkAddr],
    zkPfx := rc.zkPfx,
    bootstrapAddrs := [],
    expectedClusterID := "",
    readOnly := true }

/-! ## Concrete coordination states mirroring the fixtures of
`pkg/admin/client_test.go`, used to witness the theorems below -/

/-- An otherwise empty coordination state. -/
def emptyStore : Store :=
  { clusterID := none, brokers := [], brokerConfigs := [], topicAssignments := [],
    topicConfigs := [], partitionStates := [], reassign := none, election := none,
    changes := [] }

/-- A client constructed without read-only mode. -/
def rwClient : Client :=
  { readOnly := false }

/-- The `TestUpdateTopicConfig` seed: `/config/topics/topic1` with version 1
and config `{key1:value1, key2:value2, key4:value4}`. -/
def s3Store : Store :=
  { emptyStore with
      topicConfigs := [("topic1",
        { version := 1,
          config := [("key1", "value1"), ("key2", "value2"), ("key4", "value4")] })] }

/-- The post-state of scenario S3, from which the overwrite=false step S4
starts. -/
def s4Store : Store :=
  { emptyStore with
      topicConfigs := [("topic1",
        { version := 1,
          config := [("key1", "value1"), ("key2", "value2-updated"), ("key3", "value3")] })] }

/-- The entries of the first (overwrite=true) `TestUpdateTopicConfig` call. -/
def c1Entries : List ConfigEntry :=
  [⟨"key2", "value2-updated"⟩, ⟨"key3", "value3"⟩, ⟨"key4", ""⟩]

/-- The state produced from `s3Store` by the overwrite=true update. -/
def s3PostStore : Store :=
  { emptyStore with
      topicConfigs := [("topic1",
        { version := 1,
          config := [("key1", "value1"), ("key2", "value2-updated"), ("key3", "value3")] })],
      changes := [{ entityPath := "topics/topic1", version := 2 }] }

/-- The entries of the second (overwrite=false) `TestUpdateTopicConfig` call. -/
def s4Entries : List ConfigEntry :=
  [⟨"key2", "value2-updated2"⟩, ⟨"key3", "value3-updated"⟩, ⟨"key5", "new-value"⟩]

/-- The state produced from `s4Store` by the overwrite=false update. -/
def s4PostStore : Store :=
  { emptyStore with
      topicConfigs := [("topic1",
        { version := 1,
          config := [("key1", "value1"), ("key2", "value2-updated"),
            ("key3", "value3"), ("key5", "new-value")] })],
      changes := [{ entityPath := "topics/topic1", version := 2 }] }

/-- The `TestUpdateBrokerConfig` state after its first (overwrite=true)
update: `/config/brokers/1` maps key2 and key3. -/
def brokerCfgStore : Store :=
  { emptyStore with
      brokerConfigs := [(1,
        { version := 1,
          config := [("key2", "value2-updated"), ("key3", "value3")] })] }

/-- The entries of the second (overwrite=false) `TestUpdateBrokerConfig`
call: key3 is a deletion request for an existing key. -/
def bEntries : List ConfigEntry :=
  [⟨"key2", "value2-updated2"⟩, ⟨"key3", ""⟩, ⟨"key5", "new-value"⟩]

/-- The state produced from `brokerCfgStore` by the overwrite=false update. -/
def brokerCfgPostStore : Store :=
  { emptyStore with
      brokerConfigs := [(1,
        { version := 1,
          config := [("key2", "value2-updated"), ("key3", "value3"),
            ("key5", "new-value")] })],
      changes := [{ entityPath := "brokers/1", version := 2 }] }

/-- The `TestAddPartitions` seed: `/brokers/topics/topic1` with partitions
`{0:[1,2], 1:[2,3]}`. -/
def addPartsStore : Store :=
  { emptyStore with
      topicAssignments := [("topic1",
        { version := 1, partitions := [(0, [1, 2]), (1, [2, 3])] })] }

/-- A topic with a single partition of replica width 2. -/
def narrowStore : Store :=
  { emptyStore with
      topicAssignments := [("topic1",
        { version := 1, partitions := [(0, [1, 2])] })] }

/-- The assignment document seeded by `TestAddPartitions`. -/
def s5Doc : AssignmentDoc :=
  { version := 1, partitions := [(0, [1, 2]), (1, [2, 3])] }

/-- The new partitions added by `TestAddPartitions`. -/
def s5New : List PartitionAssignment :=
  [⟨2, [1, 2]⟩, ⟨3, [3, 4]⟩]

/-- The state after the successful `TestAddPartitions` call. -/
def s5Post : Store :=
  addedStore addPartsStore "topic1" s5Doc s5New

/-- The assignment document stored after the successful `TestAddPartitions`
call. -/
def s5PostDoc : AssignmentDoc :=
  { version := 1, partitions := [(0, [1, 2]), (1, [2, 3]), (2, [1, 2]), (3, [3, 4])] }

/-- The `BrokerInfo` that `GetBrokers` produces for broker 1 of
`brokersStore`. -/
def brokerOne : BrokerInfo :=
  { id := 1, host := "test1", port := 1234, rack := "rack1",
    timestampMs := 1589603217000, config := some [("key1", "value1")] }

/-- The `TestGetClusterID` seed: `/cluster/id` holding `test-cluster-id`. -/
def clusterStore : Store :=
  { emptyStore with clusterID := some { version := "1", id := "test-cluster-id" } }

/-- The `TestGetBrokers` seed: brokers 1 and 2, a config document for broker 1
only. -/
def brokersStore : Store :=
  { emptyStore with
      brokers :=
        [(1, { host := "test1", port := 1234, rack := "rack1",
               timestamp := some "1589603217000" }),
         (2, { host := "test2", port := 1234, rack := "rack2",
               timestamp := some "1589603217000" })],
      brokerConfigs := [(1, { version := 1, config := [("key1", "value1")] })] }

/-! ## Lemmas about the association-list primitives -/

theorem lookupA_insertA_self {κ α : Type} [DecidableEq κ] (k : κ) (v : α) :
    ∀ l : List (κ × α), lookupA k (insertA k v l) = some v
  | [] => by simp [insertA, lookupA]
  | (k2, v2) :: rest => by
      by_cases h : k2 = k
      · simp [insertA, h, lookupA]
      · simp [insertA, h, lookupA, lookupA_insertA_self k v rest]

theorem lookupA_insertA_ne {κ α : Type} [DecidableEq κ] {k k2 : κ} (v : α)
    (hne : k2 ≠ k) : ∀ l : List (κ × α), lookupA k (insertA k2 v l) = lookupA k l
  | [] => by simp [insertA, lookupA, hne]
  | (k3, v3) :: rest => by
      by_cases h : k3 = k2
      · subst h
        simp [insertA, lookupA, hne]
      · simp [insertA, h, lookupA, lookupA_insertA_ne v hne rest]

theorem lookupA_eraseA_ne {κ α : Type} [DecidableEq κ] {k k2 : κ}
    (hne : k2 ≠ k) : ∀ l : List (κ × α), lookupA k (eraseA k2 l) = lookupA k l
  | [] => by simp [eraseA, lookupA]
  | (k3, v3) :: rest => by
      by_cases h : k3 = k2
      · subst h
        simp [eraseA, lookupA, hne]
      · simp [eraseA, h, lookupA, lookupA_eraseA_ne hne rest]

theorem lookupA_eq_none_of_not_mem_keys {κ α : Type} [DecidableEq κ] {k : κ} :
    ∀ {l : List (κ × α)}, k ∉ l.map Prod.fst → lookupA k l = none
  | [], _ => rfl
  | (k2, v2) :: rest, h => by
      have h2 : k2 ≠ k := by
        intro hk
        exact h (by simp [hk])
      have h3 : k ∉ rest.map Prod.fst := by
        intro hk
        exact h (by simp [hk])
      simp [lookupA, h2, lookupA_eq_none_of_not_mem_keys h3]

theorem lookupA_eq_some_of_keysNodup {κ α : Type} [DecidableEq κ] {k : κ} {v : α} :
    ∀ {l : List (κ × α)}, (l.map Prod.fst).Nodup → (k, v) ∈ l → lookupA k l = some v
  | [], _, hm => by cases hm
  | (k2, v2) :: rest, hnd, hm => by
      rcases List.mem_cons.mp hm with heq | htail
      · cases heq
        simp [lookupA]
      · have hnd2 : k2 ∉ List.map Prod.fst rest ∧ (List.map Prod.fst rest).Nodup := by
          rw [List.map_cons, List.nodup_cons] at hnd
          exact hnd
        have h2 : k2 ≠ k := by
          intro hk
          subst hk
          exact hnd2.1 (List.mem_map.mpr ⟨(k2, v), htail, rfl⟩)
        simp [lookupA, h2, lookupA_eq_some_of_keysNodup hnd2.2 htail]

theorem mem_keys_insertA {κ α : Type} [DecidableEq κ] {a k : κ} (v : α) :
    ∀ l : List (κ × α), (a ∈ (insertA k v l).map Prod.fst ↔ a = k ∨ a ∈ l.map Prod.fst)
  | [] => by simp [insertA]
  | (k2, v2) :: rest => by
      by_cases h : k2 = k
      · subst h
        simp [insertA]
      · simp only [insertA, if_neg h, List.map_cons, List.mem_cons,
          mem_keys_insertA v rest]
        tauto

theorem mem_keys_eraseA {κ α : Type} [DecidableEq κ] {a k : κ} :
    ∀ {l : List (κ × α)}, a ∈ (eraseA k l).map Prod.fst → a ∈ l.map Prod.fst
  | [], h => h
  | (k2, v2) :: rest, h => by
      by_cases hk : k2 = k
      · simp only [eraseA, if_pos hk] at h
        rw [List.map_cons]
        exact List.mem_cons_of_mem _ h
      · simp only [eraseA, if_neg hk, List.map_cons] at h
        rw [List.map_cons]
        rcases List.mem_cons.mp h with h1 | h1
        · exact List.mem_cons.mpr (Or.inl h1)
        · exact List.mem_cons.mpr (Or.inr (mem_keys_eraseA h1))

theorem keysNodup_insertA {κ α : Type} [DecidableEq κ] (k : κ) (v : α) :
    ∀ {l : List (κ × α)}, (l.map Prod.fst).Nodup → ((insertA k v l).map Prod.fst).Nodup
  | [], _ => by simp [insertA]
  | (k2, v2) :: rest, hnd => by
      have hnd2 : k2 ∉ List.map Prod.fst rest ∧ (List.map Prod.fst rest).Nodup := by
        rw [List.map_cons, List.nodup_cons] at hnd
        exact hnd
      by_cases h : k2 = k
      · subst h
        have hrw : insertA k2 v ((k2, v2) :: rest) = (k2, v) :: rest := by
          simp [insertA]
        rw [hrw, List.map_cons, List.nodup_cons]
        exact hnd2
      · simp only [insertA, if_neg h, List.map_cons, List.nodup_cons]
        refine ⟨fun hmem => ?_, keysNodup_insertA k v hnd2.2⟩
        rcases (mem_keys_insertA v rest).mp hmem with heq | hmem2
        · exact h heq
        · exact hnd2.1 hmem2

theorem keysNodup_eraseA {κ α : Type} [DecidableEq κ] (k : κ) :
    ∀ {l : List (κ × α)}, (l.map Prod.fst).Nodup → ((eraseA k l).map Prod.fst).Nodup
  | [], _ => by simp [eraseA]
  | (k2, v2) :: rest, hnd => by
      have hnd2 : k2 ∉ List.map Prod.fst rest ∧ (List.map Prod.fst rest).Nodup := by
        rw [List.map_cons, List.nodup_cons] at hnd
        exact hnd
      by_cases h : k2 = k
      · simp only [eraseA, if_pos h]
        exact hnd2.2
      · simp only [eraseA, if_neg h, List.map_cons, List.nodup_cons]
        exact ⟨fun hmem => hnd2.1 (mem_keys_eraseA hmem), keysNodup_eraseA k hnd2.2⟩

theorem lookupA_eraseA_self {κ α : Type} [DecidableEq κ] (k : κ) :
    ∀ {l : List (κ × α)}, (l.map Prod.fst).Nodup → lookupA k (eraseA k l) = none
  | [], _ => rfl
  | (k2, v2) :: rest, hnd => by
      have hnd2 : k2 ∉ List.map Prod.fst rest ∧ (List.map Prod.fst rest).Nodup := by
        rw [List.map_cons, List.nodup_cons] at hnd
        exact hnd
      by_cases h : k2 = k
      · subst h
        simp only [eraseA, if_pos rfl]
        exact lookupA_eq_none_of_not_mem_keys hnd2.1
      · simp [eraseA, h, lookupA, lookupA_eraseA_self k hnd2.2]

/-! ## Lemmas about the config-merge step -/

theorem applyEntry_lookup_other (o : Bool) (cfg : List (String × String))
    (e : ConfigEntry) {k : String} (hk : e.configName ≠ k) :
    lookupA k (applyEntry o cfg e).1 = lookupA k cfg := by
  cases hl : lookupA e.configName cfg with
  | none =>
      by_cases hv : e.configValue = "" <;>
        simp [applyEntry, hl, hv, lookupA_insertA_ne _ hk]
  | some v =>
      by_cases hv : e.configValue = "" <;> cases o <;>
        by_cases hveq : v = e.configValue <;>
          simp [applyEntry, hl, hv, hveq, lookupA_insertA_ne _ hk, lookupA_eraseA_ne hk]

theorem applyEntry_false_of_some (cfg : List (String × String)) (e : ConfigEntry)
    {v : String} (hl : lookupA e.configName cfg = some v) :
    applyEntry false cfg e = (cfg, false) := by
  by_cases hv : e.configValue = "" <;> by_cases hveq : v = e.configValue <;>
    simp [applyEntry, hl, hv, hveq]

theorem applyEntry_keysNodup (o : Bool) (cfg : List (String × String)) (e : ConfigEntry)
    (hnd : (cfg.map Prod.fst).Nodup) :
    ((applyEntry o cfg e).1.map Prod.fst).Nodup := by
  cases hl : lookupA e.configName cfg with
  | none =>
      by_cases hv : e.configValue = "" <;>
        simp [applyEntry, hl, hv, keysNodup_insertA _ _ hnd, hnd]
  | some v =>
      by_cases hv : e.configValue = "" <;> cases o <;>
        by_cases hveq : v = e.configValue <;>
          simp [applyEntry, hl, hv, hveq, keysNodup_insertA _ _ hnd,
            keysNodup_eraseA _ hnd, hnd]

theorem applyEntry_false_preserve_some {cfg : List (String × String)}
    {e : ConfigEntry} {k v : String} (hl : lookupA k cfg = some v) :
    lookupA k (applyEntry false cfg e).1 = some v := by
  by_cases hk : e.configName = k
  · subst hk
    rw [applyEntry_false_of_some cfg e hl]
    exact hl
  · rw [applyEntry_lookup_other false cfg e hk]
    exact hl

theorem applyEntries_lookup_other (o : Bool) {k : String} :
    ∀ (entries : List ConfigEntry) (cfg : List (String × String)),
      (∀ e ∈ entries, e.configName ≠ k) →
      lookupA k (applyEntries o cfg entries).1 = lookupA k cfg
  | [], _, _ => rfl
  | e :: rest, cfg, h => by
      have h1 : e.configName ≠ k := h e (List.mem_cons_self e rest)
      have h2 : ∀ x ∈ rest, x.configName ≠ k := fun x hx => h x (List.mem_cons_of_mem e hx)
      simp only [applyEntries]
      rw [applyEntries_lookup_other o rest _ h2, applyEntry_lookup_other o cfg e h1]

theorem applyEntries_false_preserve_some :
    ∀ (entries : List ConfigEntry) (cfg : List (String × String)) (k v : String),
      lookupA k cfg = some v →
      lookupA k (applyEntries false cfg entries).1 = some v
  | [], _, _, _, hl => hl
  | e :: rest, cfg, k, v, hl => by
      simp only [applyEntries]
      exact applyEntries_false_preserve_some rest _ k v (applyEntry_false_preserve_some hl)

theorem applyEntries_false_not_changed :
    ∀ (entries : List ConfigEntry) (cfg : List (String × String)) (k v : String),
      lookupA k cfg = some v →
      k ∉ (applyEntries false cfg entries).2
  | [], cfg, k, v, _ => by simp [applyEntries]
  | e :: rest, cfg, k, v, hl => by
      simp only [applyEntries, List.mem_append]
      intro hmem
      rcases hmem with h | h
      · by_cases hk : e.configName = k
        · subst hk
          rw [applyEntry_false_of_some cfg e hl] at h
          simp at h
        · by_cases hflag : (applyEntry false cfg e).2 <;> simp [hflag] at h
          exact hk h.symm
      · exact applyEntries_false_not_changed rest _ k v
          (applyEntry_false_preserve_some hl) h

theorem applyEntries_insert (o : Bool) :
    ∀ (entries : List ConfigEntry) (cfg : List (String × String)) (e : ConfigEntry),
      e ∈ entries →
      (entries.map fun x => x.configName).Nodup →
      lookupA e.configName cfg = none → e.configValue ≠ "" →
      e.configName ∈ (applyEntries o cfg entries).2 ∧
      lookupA e.configName (applyEntries o cfg entries).1 = some e.configValue
  | [], _, e, hmem, _, _, _ => absurd hmem (List.not_mem_nil e)
  | e2 :: rest, cfg, e, hmem, hnd, hl, hv => by
      have hnd2 : e2.configName ∉ rest.map (fun x => x.configName) ∧
          (rest.map fun x => x.configName).Nodup := by
        rw [List.map_cons, List.nodup_cons] at hnd
        exact hnd
      rcases List.mem_cons.mp hmem with heq | htail
      · subst heq
        have happ : applyEntry o cfg e = (insertA e.configName e.configValue cfg, true) := by
          simp [applyEntry, hl, hv]
        have hother : ∀ x ∈ rest, x.configName ≠ e.configName := by
          intro x hx hcontra
          exact hnd2.1 (List.mem_map.mpr ⟨x, hx, hcontra⟩)
        constructor
        · simp only [applyEntries, happ, List.mem_append]
          left
          simp
        · simp only [applyEntries, happ]
          rw [applyEntries_lookup_other o rest _ hother]
          exact lookupA_insertA_self _ _ cfg
      · have hne : e2.configName ≠ e.configName := fun hcontra =>
          hnd2.1 (List.mem_map.mpr ⟨e, htail, hcontra.symm⟩)
        have hl2 : lookupA e.configName (applyEntry o cfg e2).1 = none := by
          rw [applyEntry_lookup_other o cfg e2 hne]
          exact hl
        have ih := applyEntries_insert o rest (applyEntry o cfg e2).1 e htail hnd2.2 hl2 hv
        constructor
        · simp only [applyEntries, List.mem_append]
          exact Or.inr ih.1
        · simp only [applyEntries]
          exact ih.2

theorem applyEntries_delete :
    ∀ (entries : List ConfigEntry) (cfg : List (String × String)) (e : ConfigEntry)
      (v : String),
      e ∈ entries →
      (entries.map fun x => x.configName).Nodup →
      (cfg.map Prod.fst).Nodup →
      lookupA e.configName cfg = some v → e.configValue = "" →
      e.configName ∈ (applyEntries true cfg entries).2 ∧
      lookupA e.configName (applyEntries true cfg entries).1 = none
  | [], _, e, _, hmem, _, _, _, _ => absurd hmem (List.not_mem_nil e)
  | e2 :: rest, cfg, e, v, hmem, hnd, hcfg, hl, hv => by
      have hnd2 : e2.configName ∉ rest.map (fun x => x.configName) ∧
          (rest.map fun x => x.configName).Nodup := by
        rw [List.map_cons, List.nodup_cons] at hnd
        exact hnd
      rcases List.mem_cons.mp hmem with heq | htail
      · subst heq
        have happ : applyEntry true cfg e = (eraseA e.configName cfg, true) := by
          simp [applyEntry, hl, hv]
        have hother : ∀ x ∈ rest, x.configName ≠ e.configName := by
          intro x hx hcontra
          exact hnd2.1 (List.mem_map.mpr ⟨x, hx, hcontra⟩)
        constructor
        · simp only [applyEntries, happ, List.mem_append]
          left
          simp
        · simp only [applyEntries, happ]
          rw [applyEntries_lookup_other true rest _ hother]
          exact lookupA_eraseA_self _ hcfg
      · have hne : e2.configName ≠ e.configName := fun hcontra =>
          hnd2.1 (List.mem_map.mpr ⟨e, htail, hcontra.symm⟩)
        have hl2 : lookupA e.configName (applyEntry true cfg e2).1 = some v := by
          rw [applyEntry_lookup_other true cfg e2 hne]
          exact hl
        have ih := applyEntries_delete rest (applyEntry true cfg e2).1 e v htail hnd2.2
          (applyEntry_keysNodup true cfg e2 hcfg) hl2 hv
        constructor
        · simp only [applyEntries, List.mem_append]
          exact Or.inr ih.1
        · simp only [applyEntries]
          exact ih.2

/-! ## Lemmas about sorting assignments by partition id -/

theorem insertionSort_map_fst_eq_range (l : List (Nat × List Nat)) (n : Nat)
    (h : (l.map Prod.fst).Perm (List.range n)) :
    (List.insertionSort partLE l).map Prod.fst = List.range n := by
  have hsorted : ((List.insertionSort partLE l).map Prod.fst).Sorted (· ≤ ·) :=
    List.Pairwise.map Prod.fst (fun _ _ hab => hab)
      (List.sorted_insertionSort partLE l)
  have hperm : ((List.insertionSort partLE l).map Prod.fst).Perm (List.range n) :=
    ((List.perm_insertionSort partLE l).map Prod.fst).trans h
  exact List.eq_of_perm_of_sorted hperm hsorted (List.sorted_le_range n)

theorem mem_insertionSort_iff (l : List (Nat × List Nat)) (p : Nat × List Nat) :
    p ∈ List.insertionSort partLE l ↔ p ∈ l :=
  (List.perm_insertionSort partLE l).mem_iff

/-! ## Characterization of the update operations on a non-read-only client -/

theorem updateTopicConfig_eq (c : Client) (s : Store) (name : String)
    (entries : List ConfigEntry) (o : Bool) (hro : c.readOnly = false) :
    updateTopicConfig c s name entries o =
      (if (applyEntries o (storedTopicConfig s name) entries).2 = [] then .ok ([], s)
       else .ok ((applyEntries o (storedTopicConfig s name) entries).2,
         { s with
           topicConfigs := insertA name
             { version := (configDocFor (lookupA name s.topicConfigs)).version,
               config := (applyEntries o (storedTopicConfig s name) entries).1 }
             s.topicConfigs,
           changes := s.changes ++ [{ entityPath := "topics/" ++ name, version := 2 }] })) := by
  simp [updateTopicConfig, hro, storedTopicConfig]

theorem updateBrokerConfig_eq (c : Client) (s : Store) (id : Nat)
    (entries : List ConfigEntry) (o : Bool) (hro : c.readOnly = false) :
    updateBrokerConfig c s id entries o =
      (if (applyEntries o (storedBrokerConfig s id) entries).2 = [] then .ok ([], s)
       else .ok ((applyEntries o (storedBrokerConfig s id) entries).2,
         { s with
           brokerConfigs := insertA id
             { version := (configDocFor (lookupA id s.brokerConfigs)).version,
               config := (applyEntries o (storedBrokerConfig s id) entries).1 }
             s.brokerConfigs,
           changes := s.changes ++ [{ entityPath := "brokers/" ++ toString id, version := 2 }] })) := by
  simp [updateBrokerConfig, hro, storedBrokerConfig]

theorem storedTopicConfig_of_insert (s : Store) (name : String) (d : ConfigDoc)
    (s2 : Store) (h : s2.topicConfigs = insertA name d s.topicConfigs) :
    storedTopicConfig s2 name = d.config := by
  rw [storedTopicConfig, h, lookupA_insertA_self]
  rfl

theorem storedBrokerConfig_of_insert (s : Store) (id : Nat) (d : ConfigDoc)
    (s2 : Store) (h : s2.brokerConfigs = insertA id d s.brokerConfigs) :
    storedBrokerConfig s2 id = d.config := by
  rw [storedBrokerConfig, h, lookupA_insertA_self]
  rfl

/-! ## The claims -/

/-- C1: an `UpdateTopicConfig(name, entries, overwrite=true)` call on a
pre-state config `{key1:value1, key2:value2, key4:value4}` with entries
`{key2→value2-updated, key3→value3, key4→""}` returns the changed keys
`[key2, key3, key4]` in input order; the post-state config document is the
pre-state merged with the entries modulo deletions
(`{key1:value1, key2:value2-updated, key3:value3}`) with the read-in version
field preserved, and a new sequential child appears under `/config/changes`
with body `{entity_path:"topics/<name>", version:2}`. -/
theorem C1_update_topic_overwrite_scenario (c : Client) (s : Store)
    (name : String) (ver : Nat) (hro : c.readOnly = false)
    (hcfg : lookupA name s.topicConfigs = some
      { version := ver,
        config := [("key1", "value1"), ("key2", "value2"), ("key4", "value4")] }) :
    updateTopicConfig c s name
      [⟨"key2", "value2-updated"⟩, ⟨"key3", "value3"⟩, ⟨"key4", ""⟩] true
    = .ok (["key2", "key3", "key4"],
        { s with
          topicConfigs := insertA name
            { version := ver,
              config := [("key1", "value1"), ("key2", "value2-updated"), ("key3", "value3")] }
            s.topicConfigs,
          changes := s.changes ++ [{ entityPath := "topics/" ++ name, version := 2 }] }) := by
  simp [updateTopicConfig, hro, hcfg, configDocFor, applyEntries, applyEntry, lookupA,
    insertA, eraseA]

/-- Witness for C1 at the `TestUpdateTopicConfig` fixture. -/
theorem C1_witness :
    rwClient.readOnly = false ∧
    lookupA "topic1" s3Store.topicConfigs = some
      { version := 1,
        config := [("key1", "value1"), ("key2", "value2"), ("key4", "value4")] } ∧
    updateTopicConfig rwClient s3Store "topic1"
      [⟨"key2", "value2-updated"⟩, ⟨"key3", "value3"⟩, ⟨"key4", ""⟩] true
    = .ok (["key2", "key3", "key4"],
        { s3Store with
          topicConfigs := insertA "topic1"
            { version := 1,
              config := [("key1", "value1"), ("key2", "value2-updated"), ("key3", "value3")] }
            s3Store.topicConfigs,
          changes := s3Store.changes ++ [{ entityPath := "topics/" ++ "topic1", version := 2 }] }) :=
  ⟨rfl, rfl, C1_update_topic_overwrite_scenario rwClient s3Store "topic1" 1 rfl rfl⟩

/-- C2: on an `UpdateTopicConfig` or `UpdateBrokerConfig` call with
overwrite=false, an entry whose key already exists with a different non-empty
value is silently skipped — the key is not in the returned changed-keys list
and its stored value is not rewritten — while an entry whose key is absent is
inserted and returned as changed. -/
theorem C2_non_overwrite_update (c : Client) (s : Store) (name : String)
    (bid : Nat) (entries : List ConfigEntry) (e : ConfigEntry) (v : String)
    (hro : c.readOnly = false) (hmem : e ∈ entries)
    (hnd : (entries.map fun x => x.configName).Nodup) :
    (∀ changed s2, updateTopicConfig c s name entries false = .ok (changed, s2) →
      ((lookupA e.configName (storedTopicConfig s name) = some v →
          v ≠ e.configValue → v ≠ "" →
          e.configName ∉ changed ∧
          lookupA e.configName (storedTopicConfig s2 name) = some v) ∧
        (lookupA e.configName (storedTopicConfig s name) = none → e.configValue ≠ "" →
          e.configName ∈ changed ∧
          lookupA e.configName (storedTopicConfig s2 name) = some e.configValue))) ∧
    (∀ changed s2, updateBrokerConfig c s bid entries false = .ok (changed, s2) →
      ((lookupA e.configName (storedBrokerConfig s bid) = some v →
          v ≠ e.configValue → v ≠ "" →
          e.configName ∉ changed ∧
          lookupA e.configName (storedBrokerConfig s2 bid) = some v) ∧
        (lookupA e.configName (storedBrokerConfig s bid) = none → e.configValue ≠ "" →
          e.configName ∈ changed ∧
          lookupA e.configName (storedBrokerConfig s2 bid) = some e.configValue))) := by
  constructor
  · intro changed s2 h
    rw [updateTopicConfig_eq c s name entries false hro] at h
    by_cases hch : (applyEntries false (storedTopicConfig s name) entries).2 = []
    · rw [if_pos hch] at h
      obtain ⟨h1, h2⟩ := Prod.mk.injEq .. ▸ Except.ok.inj h
      constructor
      · intro hl _ _
        refine ⟨by rw [← h1]; simp, ?_⟩
        rw [← h2]
        exact hl
      · intro hl hv
        have := (applyEntries_insert false entries _ e hmem hnd hl hv).1
        rw [hch] at this
        cases this
    · rw [if_neg hch] at h
      obtain ⟨h1, h2⟩ := Prod.mk.injEq .. ▸ Except.ok.inj h
      have hstored : storedTopicConfig s2 name =
          (applyEntries false (storedTopicConfig s name) entries).1 :=
        storedTopicConfig_of_insert s name _ s2 (by rw [← h2])
      constructor
      · intro hl _ _
        refine ⟨?_, ?_⟩
        · rw [← h1]
          exact applyEntries_false_not_changed entries _ _ v hl
        · rw [hstored]
          exact applyEntries_false_preserve_some entries _ _ v hl
      · intro hl hv
        have hins := applyEntries_insert false entries _ e hmem hnd hl hv
        refine ⟨by rw [← h1]; exact hins.1, ?_⟩
        rw [hstored]
        exact hins.2
  · intro changed s2 h
    rw [updateBrokerConfig_eq c s bid entries false hro] at h
    by_cases hch : (applyEntries false (storedBrokerConfig s bid) entries).2 = []
    · rw [if_pos hch] at h
      obtain ⟨h1, h2⟩ := Prod.mk.injEq .. ▸ Except.ok.inj h
      constructor
      · intro hl _ _
        refine ⟨by rw [← h1]; simp, ?_⟩
        rw [← h2]
        exact hl
      · intro hl hv
        have := (applyEntries_insert false entries _ e hmem hnd hl hv).1
        rw [hch] at this
        cases this
    · rw [if_neg hch] at h
      obtain ⟨h1, h2⟩ := Prod.mk.injEq .. ▸ Except.ok.inj h
      have hstored : storedBrokerConfig s2 bid =
          (applyEntries false (storedBrokerConfig s bid) entries).1 :=
        storedBrokerConfig_of_insert s bid _ s2 (by rw [← h2])
      constructor
      · intro hl _ _
        refine ⟨?_, ?_⟩
        · rw [← h1]
          exact applyEntries_false_not_changed entries _ _ v hl
        · rw [hstored]
          exact applyEntries_false_preserve_some entries _ _ v hl
      · intro hl hv
        have hins := applyEntries_insert false entries _ e hmem hnd hl hv
        refine ⟨by rw [← h1]; exact hins.1, ?_⟩
        rw [hstored]
        exact hins.2

/-- Witness for C2 at the S4 fixture: key2 (different existing value) is
skipped and retained, key5 (absent) is inserted and returned as changed. -/
theorem C2_witness :
    rwClient.readOnly = false ∧
    (⟨"key2", "value2-updated2"⟩ : ConfigEntry) ∈ s4Entries ∧
    (⟨"key5", "new-value"⟩ : ConfigEntry) ∈ s4Entries ∧
    (s4Entries.map fun x => x.configName).Nodup ∧
    ("key2" ∉ (["key5"] : List String) ∧
      lookupA "key2" (storedTopicConfig s4PostStore "topic1") = some "value2-updated") ∧
    ("key5" ∈ (["key5"] : List String) ∧
      lookupA "key5" (storedTopicConfig s4PostStore "topic1") = some "new-value") := by
  have hcall : updateTopicConfig rwClient s4Store "topic1" s4Entries false
      = .ok (["key5"], s4PostStore) := by decide
  refine ⟨rfl, by decide, by decide, by decide, ?_, ?_⟩
  · exact ((C2_non_overwrite_update rwClient s4Store "topic1" 0 s4Entries
      ⟨"key2", "value2-updated2"⟩ "value2-updated" rfl (by decide) (by decide)).1
        ["key5"] s4PostStore hcall).1 (by decide) (by decide) (by decide)
  · exact ((C2_non_overwrite_update rwClient s4Store "topic1" 0 s4Entries
      ⟨"key5", "new-value"⟩ "x" rfl (by decide) (by decide)).1
        ["key5"] s4PostStore hcall).2 (by decide) (by decide)

/-- C3 counterexample: at the `TestUpdateBrokerConfig` overwrite=false call,
the empty-valued entry for the existing key3 does NOT count as changed and
key3 is NOT deleted — refuting the claim that an empty-valued entry for an
existing key counts as changed regardless of the overwrite flag. -/
theorem C3_counterexample :
    updateBrokerConfig rwClient brokerCfgStore 1 bEntries false
      = .ok (["key5"], brokerCfgPostStore) ∧
    "key3" ∉ (["key5"] : List String) ∧
    lookupA "key3" (storedBrokerConfig brokerCfgPostStore 1) = some "value3" := by
  exact ⟨by decide, by decide, by decide⟩

/-- C3 amended: an entry with an empty value whose key exists in the current
config counts as changed — the key appears in the changed-keys list and is
deleted from the stored config — when `overwrite` is true; when `overwrite`
is false such an entry is silently skipped like any other existing-key
rewrite (not changed, stored value retained).  Stated for both
`UpdateTopicConfig` and `UpdateBrokerConfig`. -/
theorem C3_deletion_amended (c : Client) (s : Store) (name : String)
    (bid : Nat) (entries : List ConfigEntry) (e : ConfigEntry) (v : String)
    (hro : c.readOnly = false) (hmem : e ∈ entries)
    (hnd : (entries.map fun x => x.configName).Nodup) :
    (∀ changed s2, updateTopicConfig c s name entries true = .ok (changed, s2) →
      ((storedTopicConfig s name).map Prod.fst).Nodup →
      lookupA e.configName (storedTopicConfig s name) = some v → e.configValue = "" →
      e.configName ∈ changed ∧
      lookupA e.configName (storedTopicConfig s2 name) = none) ∧
    (∀ changed s2, updateBrokerConfig c s bid entries true = .ok (changed, s2) →
      ((storedBrokerConfig s bid).map Prod.fst).Nodup →
      lookupA e.configName (storedBrokerConfig s bid) = some v → e.configValue = "" →
      e.configName ∈ changed ∧
      lookupA e.configName (storedBrokerConfig s2 bid) = none) ∧
    (∀ changed s2, updateTopicConfig c s name entries false = .ok (changed, s2) →
      lookupA e.configName (storedTopicConfig s name) = some v → e.configValue = "" →
      e.configName ∉ changed ∧
      lookupA e.configName (storedTopicConfig s2 name) = some v) ∧
    (∀ changed s2, updateBrokerConfig c s bid entries false = .ok (changed, s2) →
      lookupA e.configName (storedBrokerConfig s bid) = some v → e.configValue = "" →
      e.configName ∉ changed ∧
      lookupA e.configName (storedBrokerConfig s2 bid) = some v) := by
  refine ⟨?_, ?_, ?_, ?_⟩
  · intro changed s2 h hcfgnd hl hv
    rw [updateTopicConfig_eq c s name entries true hro] at h
    have hdel := applyEntries_delete entries _ e v hmem hnd hcfgnd hl hv
    by_cases hch : (applyEntries true (storedTopicConfig s name) entries).2 = []
    · rw [hch] at hdel
      cases hdel.1
    · rw [if_neg hch] at h
      obtain ⟨h1, h2⟩ := Prod.mk.injEq .. ▸ Except.ok.inj h
      have hstored : storedTopicConfig s2 name =
          (applyEntries true (storedTopicConfig s name) entries).1 :=
        storedTopicConfig_of_insert s name _ s2 (by rw [← h2])
      exact ⟨h1 ▸ hdel.1, hstored ▸ hdel.2⟩
  · intro changed s2 h hcfgnd hl hv
    rw [updateBrokerConfig_eq c s bid entries true hro] at h
    have hdel := applyEntries_delete entries _ e v hmem hnd hcfgnd hl hv
    by_cases hch : (applyEntries true (storedBrokerConfig s bid) entries).2 = []
    · rw [hch] at hdel
      cases hdel.1
    · rw [if_neg hch] at h
      obtain ⟨h1, h2⟩ := Prod.mk.injEq .. ▸ Except.ok.inj h
      have hstored : storedBrokerConfig s2 bid =
          (applyEntries true (storedBrokerConfig s bid) entries).1 :=
        storedBrokerConfig_of_insert s bid _ s2 (by rw [← h2])
      exact ⟨h1 ▸ hdel.1, hstored ▸ hdel.2⟩
  · intro changed s2 h hl _
    rw [updateTopicConfig_eq c s name entries false hro] at h
    by_cases hch : (applyEntries false (storedTopicConfig s name) entries).2 = []
    · rw [if_pos hch] at h
      obtain ⟨h1, h2⟩ := Prod.mk.injEq .. ▸ Except.ok.inj h
      exact ⟨by rw [← h1]; simp, by rw [← h2]; exact hl⟩
    · rw [if_neg hch] at h
      obtain ⟨h1, h2⟩ := Prod.mk.injEq .. ▸ Except.ok.inj h
      have hstored : storedTopicConfig s2 name =
          (applyEntries false (storedTopicConfig s name) entries).1 :=
        storedTopicConfig_of_insert s name _ s2 (by rw [← h2])
      refine ⟨by rw [← h1]; exact applyEntries_false_not_changed entries _ _ v hl, ?_⟩
      rw [hstored]
      exact applyEntries_false_preserve_some entries _ _ v hl
  · intro changed s2 h hl _
    rw [updateBrokerConfig_eq c s bid entries false hro] at h
    by_cases hch : (applyEntries false (storedBrokerConfig s bid) entries).2 = []
    · rw [if_pos hch] at h
      obtain ⟨h1, h2⟩ := Prod.mk.injEq .. ▸ Except.ok.inj h
      exact ⟨by rw [← h1]; simp, by rw [← h2]; exact hl⟩
    · rw [if_neg hch] at h
      obtain ⟨h1, h2⟩ := Prod.mk.injEq .. ▸ Except.ok.inj h
      have hstored : storedBrokerConfig s2 bid =
          (applyEntries false (storedBrokerConfig s bid) entries).1 :=
        storedBrokerConfig_of_insert s bid _ s2 (by rw [← h2])
      refine ⟨by rw [← h1]; exact applyEntries_false_not_changed entries _ _ v hl, ?_⟩
      rw [hstored]
      exact applyEntries_false_preserve_some entries _ _ v hl

/-- Witness for C3 (amended): key4 is deleted and counted by the
overwrite=true topic update; key3's deletion request is skipped by the
overwrite=false broker update. -/
theorem C3_witness :
    rwClient.readOnly = false ∧
    (⟨"key4", ""⟩ : ConfigEntry) ∈ c1Entries ∧
    (c1Entries.map fun x => x.configName).Nodup ∧
    (⟨"key3", ""⟩ : ConfigEntry) ∈ bEntries ∧
    (bEntries.map fun x => x.configName).Nodup ∧
    ("key4" ∈ (["key2", "key3", "key4"] : List String) ∧
      lookupA "key4" (storedTopicConfig s3PostStore "topic1") = none) ∧
    ("key3" ∉ (["key5"] : List String) ∧
      lookupA "key3" (storedBrokerConfig brokerCfgPostStore 1) = some "value3") := by
  have hcall1 : updateTopicConfig rwClient s3Store "topic1" c1Entries true
      = .ok (["key2", "key3", "key4"], s3PostStore) := by decide
  have hcall2 : updateBrokerConfig rwClient brokerCfgStore 1 bEntries false
      = .ok (["key5"], brokerCfgPostStore) := by decide
  refine ⟨rfl, by decide, by decide, by decide, by decide, ?_, ?_⟩
  · exact (C3_deletion_amended rwClient s3Store "topic1" 0 c1Entries
      ⟨"key4", ""⟩ "value4" rfl (by decide) (by decide)).1
        ["key2", "key3", "key4"] s3PostStore hcall1 (by decide) (by decide) (by decide)
  · exact (C3_deletion_amended rwClient brokerCfgStore "t" 1 bEntries
      ⟨"key3", ""⟩ "value3" rfl (by decide) (by decide)).2.2.2
        ["key5"] brokerCfgPostStore hcall2 (by decide) (by decide)

/-- C4 counterexample: new partition IDs that are a dense continuation of the
existing count do NOT suffice for success — with a replica list wider than the
existing width the call fails with `ReplicaWidthMismatch` (spec §4.4 step 4),
refuting the claim's unconditional success condition. -/
theorem C4_counterexample :
    denseFrom 1 [⟨1, [1, 2, 3]⟩] = true ∧
    lookupA "topic1" narrowStore.topicAssignments
      = some { version := 1, partitions := [(0, [1, 2])] } ∧
    addPartitions rwClient narrowStore "topic1" [⟨1, [1, 2, 3]⟩]
      = .error .replicaWidthMismatch := by
  exact ⟨by decide, by decide, by decide⟩

/-- C4 amended: an `AddPartitions` call whose new partition IDs contain an
existing ID fails with `PartitionExists` (the document is untouched: a failing
call returns no new state); a call whose new IDs are a dense continuation
starting at the existing count AND whose replica lists match the existing
width succeeds, and a subsequent read of the topic yields partitions with IDs
`0..N-1` in ascending order, each carrying its stored replica list (existing
lists unchanged, new ones equal to the input). -/
theorem C4_add_partitions_amended (c : Client) (s : Store) (topic : String)
    (assignments : List PartitionAssignment) (doc : AssignmentDoc)
    (hro : c.readOnly = false)
    (hdoc : lookupA topic s.topicAssignments = some doc) :
    ((assignments.any fun a => doc.partitions.any fun p => p.1 == a.id) = true →
      addPartitions c s topic assignments = .error .partitionExists) ∧
    (denseFrom doc.partitions.length assignments = true →
      widthsMatch doc.partitions assignments = true →
      (doc.partitions.map Prod.fst).Perm (List.range doc.partitions.length) →
      addPartitions c s topic assignments = .ok (addedStore s topic doc assignments) ∧
      (getTopic (addedStore s topic doc assignments) topic false).map
          (fun info => info.partitions.map fun p => p.id)
        = .ok (List.range (doc.partitions.length + assignments.length)) ∧
      (∀ info, getTopic (addedStore s topic doc assignments) topic false = .ok info →
        ∀ q ∈ info.partitions,
          lookupA q.id (doc.partitions ++ assignments.map fun a => (a.id, a.replicas))
            = some q.replicas)) := by
  constructor
  · intro hany
    simp [addPartitions, hro, hdoc, hany]
  · intro hdense hwidth hperm
    have hids : assignments.map (fun a => a.id)
        = List.range' doc.partitions.length assignments.length := by
      unfold denseFrom at hdense
      exact eq_of_beq hdense
    have hnoover : (assignments.any fun a => doc.partitions.any fun p => p.1 == a.id)
        = false := by
      rw [List.any_eq_false]
      intro a ha
      rw [Bool.not_eq_true, List.any_eq_false]
      intro p hp
      have haid : a.id ∈ List.range' doc.partitions.length assignments.length := by
        rw [← hids]
        exact List.mem_map.mpr ⟨a, ha, rfl⟩
      have haid2 : doc.partitions.length ≤ a.id := (List.mem_range'_1.mp haid).1
      have hpid : p.1 ∈ List.range doc.partitions.length :=
        hperm.mem_iff.mp (List.mem_map.mpr ⟨p, hp, rfl⟩)
      have hpid2 : p.1 < doc.partitions.length := List.mem_range.mp hpid
      simp only [beq_iff_eq]
      omega
    have hcall : addPartitions c s topic assignments
        = .ok (addedStore s topic doc assignments) := by
      simp [addPartitions, hro, hdoc, hnoover, hdense, hwidth, addedStore]
    have hnewkeys : ((doc.partitions ++ assignments.map fun a => (a.id, a.replicas)).map
        Prod.fst).Perm
        (List.range (doc.partitions.length + assignments.length)) := by
      rw [List.map_append]
      have h2 : (assignments.map fun a => (a.id, a.replicas)).map Prod.fst
          = List.range' doc.partitions.length assignments.length := by
        rw [List.map_map]
        exact hids
      rw [h2]
      have hr : List.range doc.partitions.length ++
          List.range' doc.partitions.length assignments.length
          = List.range (doc.partitions.length + assignments.length) := by
        have h3 := List.range'_append 0 doc.partitions.length assignments.length 1
        rw [List.range_eq_range', List.range_eq_range']
        rw [Nat.add_comm doc.partitions.length assignments.length]
        simpa using h3
      rw [← hr]
      exact hperm.append_right _
    have hget : getTopic (addedStore s topic doc assignments) topic false
        = .ok
          { name := topic,
            config :=
              match lookupA topic (addedStore s topic doc assignments).topicConfigs with
              | some d => d.config
              | none => [],
            partitions :=
              (List.insertionSort partLE
                (doc.partitions ++ assignments.map fun a => (a.id, a.replicas))).map
                (mkPartitionInfo (addedStore s topic doc assignments) topic false),
            version := doc.version } := by
      have hl : lookupA topic (addedStore s topic doc assignments).topicAssignments
          = some ({ version := doc.version,
                    partitions := doc.partitions ++ assignments.map fun a => (a.id, a.replicas) } : AssignmentDoc) := by
        simp [addedStore, lookupA_insertA_self]
      simp [getTopic, hl]
    refine ⟨hcall, ?_, ?_⟩
    · rw [hget]
      simp only [Except.map]
      congr 1
      rw [List.map_map]
      have hcg : ((fun p => p.id) ∘
          mkPartitionInfo (addedStore s topic doc assignments) topic false)
          = Prod.fst := by
        funext p
        rfl
      rw [hcg]
      exact insertionSort_map_fst_eq_range _ _ hnewkeys
    · intro info hinfo q hq
      rw [hget] at hinfo
      have hinfo2 := Except.ok.inj hinfo
      rw [← hinfo2] at hq
      simp only [] at hq
      obtain ⟨p, hp, hpq⟩ := List.mem_map.mp hq
      have hpmem : p ∈ doc.partitions ++ assignments.map fun a => (a.id, a.replicas) :=
        (mem_insertionSort_iff _ p).mp hp
      have hqid : q.id = p.1 := by
        rw [← hpq]
        rfl
      have hqrep : q.replicas = p.2 := by
        rw [← hpq]
        rfl
      rw [hqid, hqrep]
      exact lookupA_eq_some_of_keysNodup
        (hnewkeys.symm.nodup (List.nodup_range _)) (by exact hpmem)

/-- Witness for C4 (amended) at the `TestAddPartitions` fixture: the dense
width-matching add succeeds and the read-back has IDs 0..3; re-adding ID 3
afterwards fails with `PartitionExists`. -/
theorem C4_witness :
    denseFrom 2 s5New = true ∧
    widthsMatch s5Doc.partitions s5New = true ∧
    (s5Doc.partitions.map Prod.fst).Perm (List.range 2) ∧
    addPartitions rwClient addPartsStore "topic1" s5New = .ok s5Post ∧
    (getTopic s5Post "topic1" false).map (fun info => info.partitions.map fun p => p.id)
      = .ok (List.range 4) ∧
    (([⟨3, [1, 2]⟩, ⟨4, [3, 4]⟩] : List PartitionAssignment).any
        fun a => s5PostDoc.partitions.any fun p => p.1 == a.id) = true ∧
    addPartitions rwClient s5Post "topic1" [⟨3, [1, 2]⟩, ⟨4, [3, 4]⟩]
      = .error .partitionExists := by
  have hsucc := (C4_add_partitions_amended rwClient addPartsStore "topic1" s5New s5Doc
    rfl (by decide)).2 (by decide) (by decide) (by decide)
  have hfail := (C4_add_partitions_amended rwClient s5Post "topic1"
    [⟨3, [1, 2]⟩, ⟨4, [3, 4]⟩] s5PostDoc rfl (by decide)).1 (by decide)
  exact ⟨by decide, by decide, by decide, hsucc.1, hsucc.2.1, by decide, hfail⟩

/-- C5: a successful `AssignPartitions` writes `/admin/reassign_partitions`
with version 1 and exactly the input partitions in order, and
`AssignmentInProgress` — the existence of that node — transitions from false
(node absent) before the call to true after it. -/
theorem C5_assign_round_trip (c : Client) (s : Store) (topic : String)
    (assignments : List PartitionAssignment)
    (hro : c.readOnly = false) (hnone : s.reassign = none) :
    assignmentInProgress s = false ∧
    assignPartitions c s topic assignments = .ok (reassignedStore s topic assignments) ∧
    (reassignedStore s topic assignments).reassign
      = some ({ version := 1,
                partitions := assignments.map fun a =>
                  { topic := topic, partition := a.id, replicas := a.replicas } } : ReassignDoc) ∧
    assignmentInProgress (reassignedStore s topic assignments) = true ∧
    (∀ s3 : Store, assignmentInProgress s3 = s3.reassign.isSome) := by
  refine ⟨?_, ?_, rfl, rfl, fun s3 => rfl⟩
  · simp [assignmentInProgress, hnone]
  · simp [assignPartitions, hro, hnone, reassignedStore]

/-- Witness for C5 at the `TestUpdateAssignments` fixture. -/
theorem C5_witness :
    assignmentInProgress emptyStore = false ∧
    assignPartitions rwClient emptyStore "test-topic" [⟨1, [1, 2, 3]⟩, ⟨2, [3, 4, 5]⟩]
      = .ok (reassignedStore emptyStore "test-topic" [⟨1, [1, 2, 3]⟩, ⟨2, [3, 4, 5]⟩]) ∧
    (reassignedStore emptyStore "test-topic" [⟨1, [1, 2, 3]⟩, ⟨2, [3, 4, 5]⟩]).reassign
      = some ({ version := 1,
                partitions := [{ topic := "test-topic", partition := 1, replicas := [1, 2, 3] },
                               { topic := "test-topic", partition := 2, replicas := [3, 4, 5] }] } : ReassignDoc) ∧
    assignmentInProgress
      (reassignedStore emptyStore "test-topic" [⟨1, [1, 2, 3]⟩, ⟨2, [3, 4, 5]⟩]) = true := by
  have h := C5_assign_round_trip rwClient emptyStore "test-topic"
    [⟨1, [1, 2, 3]⟩, ⟨2, [3, 4, 5]⟩] rfl rfl
  exact ⟨h.1, h.2.1, h.2.2.1, h.2.2.2.1⟩

/-- C6: with no election in flight, `ElectionInProgress` is false;
`RunLeaderElection(topic, ids)` writes `/admin/preferred_replica_election`
with version 1 and one `{topic, partition}` entry per input id, in exactly the
input order (duplicates preserved, since the map keeps the list as given), and
`ElectionInProgress` is true afterwards. -/
theorem C6_leader_election (c : Client) (s : Store) (topic : String)
    (ids : List Nat) (hro : c.readOnly = false) (hnone : s.election = none) :
    electionInProgress s = false ∧
    runLeaderElection c s topic ids = .ok (electedStore s topic ids) ∧
    (electedStore s topic ids).election
      = some ({ version := 1,
                partitions := ids.map fun p => { topic := topic, partition := p } } : ElectionDoc) ∧
    electionInProgress (electedStore s topic ids) = true := by
  refine ⟨?_, ?_, rfl, rfl⟩
  · simp [electionInProgress, hnone]
  · simp [runLeaderElection, hro, hnone, electedStore]

/-- Witness for C6 at the `TestRunLeaderElection` fixture, ids `[3, 5, 6]`. -/
theorem C6_witness :
    electionInProgress emptyStore = false ∧
    runLeaderElection rwClient emptyStore "test-topic" [3, 5, 6]
      = .ok (electedStore emptyStore "test-topic" [3, 5, 6]) ∧
    (electedStore emptyStore "test-topic" [3, 5, 6]).election
      = some ({ version := 1,
                partitions := [{ topic := "test-topic", partition := 3 },
                               { topic := "test-topic", partition := 5 },
                               { topic := "test-topic", partition := 6 }] } : ElectionDoc) ∧
    electionInProgress (electedStore emptyStore "test-topic" [3, 5, 6]) = true := by
  have h := C6_leader_election rwClient emptyStore "test-topic" [3, 5, 6] rfl rfl
  exact ⟨h.1, h.2.1, h.2.2.1, h.2.2.2⟩

/-- C7: with a non-empty `ExpectedClusterID` and a `/cluster/id` document
present, construction succeeds iff the stored id equals the expected one; on
match `GetClusterID` returns that id, and on mismatch construction fails with
`ClusterIDMismatch`, producing no client. -/
theorem C7_cluster_id_pinning (cfg : ClientConfig) (s : Store) (doc : ClusterIDDoc)
    (hne : cfg.expectedClusterID ≠ "") (hdoc : s.clusterID = some doc) :
    ((∃ c2, newClient cfg s = .ok c2) ↔ doc.id = cfg.expectedClusterID) ∧
    (doc.id = cfg.expectedClusterID →
      newClient cfg s = .ok { readOnly := cfg.readOnly } ∧
      getClusterID s = .ok cfg.expectedClusterID) ∧
    (doc.id ≠ cfg.expectedClusterID →
      newClient cfg s = .error .clusterIDMismatch) := by
  refine ⟨⟨?_, ?_⟩, ?_, ?_⟩
  · rintro ⟨c2, hc2⟩
    by_cases hid : doc.id = cfg.expectedClusterID
    · exact hid
    · simp [newClient, hne, hdoc, hid] at hc2
  · intro hid
    refine ⟨{ readOnly := cfg.readOnly }, ?_⟩
    simp [newClient, hne, hdoc, hid]
  · intro hid
    constructor
    · simp [newClient, hne, hdoc, hid]
    · simp [getClusterID, hdoc, hid]
  · intro hid
    simp [newClient, hne, hdoc, hid]

/-- Witness for C7 at the `TestGetClusterID` fixture: construction with the
matching id succeeds and `GetClusterID` returns it; construction with
`bad-cluster-id` fails with `ClusterIDMismatch`. -/
theorem C7_witness :
    newClient
      { zkAddrs := ["zk"], zkPfx := "", bootstrapAddrs := ["kafka"],
        expectedClusterID := "test-cluster-id", readOnly := true }
      clusterStore = .ok { readOnly := true } ∧
    getClusterID clusterStore = .ok "test-cluster-id" ∧
    newClient
      { zkAddrs := ["zk"], zkPfx := "", bootstrapAddrs := ["kafka"],
        expectedClusterID := "bad-cluster-id", readOnly := true }
      clusterStore = .error .clusterIDMismatch := by
  have hgood := (C7_cluster_id_pinning
    { zkAddrs := ["zk"], zkPfx := "", bootstrapAddrs := ["kafka"],
      expectedClusterID := "test-cluster-id", readOnly := true }
    clusterStore { version := "1", id := "test-cluster-id" }
    (by decide) rfl).2.1 (by decide)
  have hbad := (C7_cluster_id_pinning
    { zkAddrs := ["zk"], zkPfx := "", bootstrapAddrs := ["kafka"],
      expectedClusterID := "bad-cluster-id", readOnly := true }
    clusterStore { version := "1", id := "test-cluster-id" }
    (by decide) rfl).2.2 (by decide)
  exact ⟨hgood.1, hgood.2, hbad⟩

/-- C8: for a topic present in the coordination service whose assignment IDs
satisfy the density invariant, `GetTopic` returns partitions whose IDs are
exactly `0..len(partitions)-1` in ascending order; for an absent topic name it
fails with `NotFound` rather than returning an empty `TopicInfo`. -/
theorem C8_topic_ids_dense (s : Store) (name : String) (includeState : Bool) :
    (∀ doc, lookupA name s.topicAssignments = some doc →
      (doc.partitions.map Prod.fst).Perm (List.range doc.partitions.length) →
      (getTopic s name includeState).map
          (fun info => info.partitions.map fun p => p.id)
        = .ok (List.range doc.partitions.length)) ∧
    (lookupA name s.topicAssignments = none →
      getTopic s name includeState = .error .notFound) := by
  constructor
  · intro doc hdoc hperm
    have hget : getTopic s name includeState
        = .ok
          { name := name,
            config :=
              match lookupA name s.topicConfigs with
              | some d => d.config
              | none => [],
            partitions :=
              (List.insertionSort partLE doc.partitions).map
                (mkPartitionInfo s name includeState),
            version := doc.version } := by
      simp [getTopic, hdoc]
    rw [hget]
    simp only [Except.map]
    congr 1
    rw [List.map_map]
    have hcg : ((fun p => p.id) ∘ mkPartitionInfo s name includeState) = Prod.fst := by
      funext p
      rfl
    rw [hcg]
    exact insertionSort_map_fst_eq_range _ _ hperm
  · intro hnone
    simp [getTopic, hnone]

/-- Witness for C8 at the `TestGetTopics` topic1 fixture together with the
non-existent-topic case. -/
theorem C8_witness :
    lookupA "topic1" addPartsStore.topicAssignments = some s5Doc ∧
    (s5Doc.partitions.map Prod.fst).Perm (List.range s5Doc.partitions.length) ∧
    (getTopic addPartsStore "topic1" true).map
        (fun info => info.partitions.map fun p => p.id)
      = .ok (List.range 2) ∧
    lookupA "non-existent-topic" addPartsStore.topicAssignments = none ∧
    getTopic addPartsStore "non-existent-topic" true = .error .notFound := by
  have h := C8_topic_ids_dense addPartsStore "topic1" true
  have h2 := C8_topic_ids_dense addPartsStore "non-existent-topic" true
  exact ⟨by decide, by decide, h.1 s5Doc (by decide) (by decide), by decide,
    h2.2 (by decide)⟩

/-- C9: every broker returned by `GetBrokers` comes from a registration node;
its timestamp is the base-10 parse of the stored millisecond string (so
`"1589603217000"` is unix time 1589603217 seconds = 1589603217 * 1000 ms, and
an absent field is the zero time), a broker without a `/config/brokers/<id>`
document carries no config map, and one with such a document carries exactly
the stored map. -/
theorem C9_broker_info (s : Store) (b : BrokerInfo) (hb : b ∈ getBrokers s) :
    (∃ p, p ∈ s.brokers ∧ b = mkBrokerInfo s p.1 p.2 ∧
      b.timestampMs = parseTimestampMs p.2.timestamp ∧
      (lookupA p.1 s.brokerConfigs = none → b.config = none) ∧
      (∀ d, lookupA p.1 s.brokerConfigs = some d → b.config = some d.config)) ∧
    parseTimestampMs (some "1589603217000") = 1589603217 * 1000 ∧
    parseTimestampMs none = 0 := by
  refine ⟨?_, by decide, rfl⟩
  obtain ⟨p, hp, hbp⟩ := List.mem_map.mp hb
  refine ⟨p, hp, hbp.symm, ?_, ?_, ?_⟩
  · rw [← hbp]
    rfl
  · intro hl
    rw [← hbp]
    simp [mkBrokerInfo, hl]
  · intro d hl
    rw [← hbp]
    simp [mkBrokerInfo, hl]

/-- Witness for C9 at the `TestGetBrokers` fixture: broker 1 with its parsed
timestamp and config document. -/
theorem C9_witness :
    brokerOne ∈ getBrokers brokersStore ∧
    ((∃ p, p ∈ brokersStore.brokers ∧ brokerOne = mkBrokerInfo brokersStore p.1 p.2 ∧
        brokerOne.timestampMs = parseTimestampMs p.2.timestamp ∧
        (lookupA p.1 brokersStore.brokerConfigs = none → brokerOne.config = none) ∧
        (∀ d, lookupA p.1 brokersStore.brokerConfigs = some d →
          brokerOne.config = some d.config)) ∧
      parseTimestampMs (some "1589603217000") = 1589603217 * 1000 ∧
      parseTimestampMs none = 0) :=
  ⟨by decide, C9_broker_info brokersStore brokerOne (by decide)⟩

/-- C10: the repl subcommand's direct construction from the zk-addr flag (no
cluster-config) builds the client with `ReadOnly` set to true
(`cmd/topicctl/subcmd/repl.go`), and by the read-only gating of the Mutation
Engine every modelled mutation entry point on such a client fails with
`ReadOnly` on any state, before any write. -/
theorem C10_repl_read_only (rc : ReplCmdConfig) (s : Store) (c : Client)
    (hc : newClient (replDirectClientConfig rc) s = .ok c) :
    c.readOnly = true ∧
    (∀ s2 name entries o, updateTopicConfig c s2 name entries o = .error .readOnly) ∧
    (∀ s2 bid entries o, updateBrokerConfig c s2 bid entries o = .error .readOnly) ∧
    (∀ s2 topic assignments, assignPartitions c s2 topic assignments = .error .readOnly) ∧
    (∀ s2 topic assignments, addPartitions c s2 topic assignments = .error .readOnly) ∧
    (∀ s2 topic ids, runLeaderElection c s2 topic ids = .error .readOnly) := by
  have hcc : c = { readOnly := true } := by
    simp [newClient, replDirectClientConfig] at hc
    rw [← hc]
  subst hcc
  refine ⟨rfl, ?_, ?_, ?_, ?_, ?_⟩ <;> intros <;>
    simp [updateTopicConfig, updateBrokerConfig, assignPartitions, addPartitions,
      runLeaderElection]

/-- Witness for C10: a concrete repl invocation with only the zk flags set. -/
theorem C10_witness :
    newClient (replDirectClientConfig { clusterConfig := "", zkAddr := "zk:2181", zkPfx := "" })
      emptyStore = .ok { readOnly := true } ∧
    ({ readOnly := true } : Client).readOnly = true ∧
    updateTopicConfig { readOnly := true } s3Store "topic1" c1Entries true
      = .error .readOnly ∧
    updateBrokerConfig { readOnly := true } brokerCfgStore 1 bEntries false
      = .error .readOnly ∧
    assignPartitions { readOnly := true } emptyStore "test-topic" [⟨1, [1, 2, 3]⟩]
      = .error .readOnly ∧
    addPartitions { readOnly := true } addPartsStore "topic1" s5New
      = .error .readOnly ∧
    runLeaderElection { readOnly := true } emptyStore "test-topic" [3, 5, 6]
      = .error .readOnly := by
  have h := C10_repl_read_only
    { clusterConfig := "", zkAddr := "zk:2181", zkPfx := "" } emptyStore
    { readOnly := true } rfl
  exact ⟨rfl, h.1, h.2.1 s3Store "topic1" c1Entries true,
    h.2.2.1 brokerCfgStore 1 bEntries false,
    h.2.2.2.1 emptyStore "test-topic" [⟨1, [1, 2, 3]⟩],
    h.2.2.2.2.1 addPartsStore "topic1" s5New,
    h.2.2.2.2.2 emptyStore "test-topic" [3, 5, 6]⟩

end Topicctl
